import Mathlib

/-!
Shallow embedding of the audio scraping module vk_api/audio.py and proofs
about its pagination, scraping, batching, retry, timing and encoding logic.

Python values occurring in scraped track arrays are modelled by PyVal
(integers and strings); the hash field track[24] is modelled as the string
it holds in the payloads the module consumes.
-/

inductive PyVal where
  | int (i : Int)
  | str (s : String)
  deriving DecidableEq, Repr

/-- Python built-in str() on the values we model. -/
def pyStr : PyVal → String
  | .int i => toString i
  | .str s => s

/-- A track entry of a scraped audio list; only the positions the code
reads are modelled: track[0], track[1] and track[24]. -/
structure Track where
  f0 : PyVal
  f1 : PyVal
  f24 : String
  deriving DecidableEq, Repr

/-- The triple (str(track[1]), str(track[0]), track[24]) built by scrap_ids. -/
abbrev FullId := String × String × String

/-- scrap_ids from audio.py: walks audio_data in order, forms
full_id = (str(track[1]), str(track[0]), track[24]) and appends it to the
accumulating list exactly when all(full_id) holds, that is when all three
components are truthy (nonempty strings). -/
def scrap_ids (audio_data : List Track) : List FullId :=
  audio_data.foldl
    (fun ids track =>
      let full_id : FullId := (pyStr track.f1, pyStr track.f0, track.f24)
      if full_id.1 ≠ "" ∧ full_id.2.1 ≠ "" ∧ full_id.2.2 ≠ "" then
        ids ++ [full_id]
      else ids)
    []

/-- Reference reformulation of scrap_ids as an order preserving filterMap. -/
def scrap_ids_spec (audio_data : List Track) : List FullId :=
  audio_data.filterMap
    (fun track =>
      let full_id : FullId := (pyStr track.f1, pyStr track.f0, track.f24)
      if full_id.1 ≠ "" ∧ full_id.2.1 ≠ "" ∧ full_id.2.2 ≠ "" then
        some full_id
      else none)

theorem scrap_ids_foldl_acc (audio_data : List Track) (acc : List FullId) :
    audio_data.foldl
      (fun ids track =>
        let full_id : FullId := (pyStr track.f1, pyStr track.f0, track.f24)
        if full_id.1 ≠ "" ∧ full_id.2.1 ≠ "" ∧ full_id.2.2 ≠ "" then
          ids ++ [full_id]
        else ids)
      acc = acc ++ scrap_ids_spec audio_data := by
  induction audio_data generalizing acc with
  | nil => simp [scrap_ids_spec]
  | cons track rest ih =>
      simp only [List.foldl_cons, scrap_ids_spec, List.filterMap_cons]
      by_cases h : (pyStr track.f1 ≠ "" ∧ pyStr track.f0 ≠ "" ∧ track.f24 ≠ "")
      · simp only [h, if_pos h, ih]
        simp [scrap_ids_spec, List.append_assoc]
      · simp only [if_neg h, ih]
        simp [scrap_ids_spec]

/-- C5: scrap_ids extracts fixed position fields: it returns, preserving the
input order, the triple (str(track[1]), str(track[0]), track[24]) for exactly
those tracks whose three extracted components are all truthy (nonempty), and
skips the others. -/
theorem scrap_ids_extracts_fixed_positions :
    ∀ audio_data : List Track, scrap_ids audio_data = scrap_ids_spec audio_data := by
  intro audio_data
  have h := scrap_ids_foldl_acc audio_data []
  simpa [scrap_ids] using h

/-- Possible results of get_audio_by_id: a track dictionary or the empty list. -/
inductive GetAudioResult where
  | track (t : FullId)
  | emptyList
  deriving DecidableEq, Repr

/-- Truthiness of a Python generator object such as the one returned by
scrap_tracks: it is always true, independent of the elements the generator
would yield. -/
def generator_truthy (_tracks : List FullId) : Bool := true

/-- get_audio_by_id from audio.py, modelled after the page has been scraped
into ids: track = scrap_tracks(ids, ...); if track: return next(track);
else: return []. The generator is represented by the list of tracks it
would yield (one per id); the error value models StopIteration escaping
from next() on an empty generator. -/
def get_audio_by_id (ids : List FullId) : Except Unit GetAudioResult :=
  if generator_truthy ids then
    match ids.head? with
    | some t => .ok (.track t)
    | none => .error ()
  else
    .ok .emptyList

/-- C9: get_audio_by_id never returns the empty list: the truthiness test on
the generator object always takes the first branch, so the return [] branch
is unreachable, and on a page with no matching audio item next() raises
StopIteration instead of returning []. -/
theorem get_audio_by_id_never_empty_list :
    (∀ ids : List FullId, get_audio_by_id ids ≠ .ok .emptyList) ∧
      get_audio_by_id [] = .error () := by
  constructor
  · intro ids
    cases ids <;> simp [get_audio_by_id, generator_truthy]
  · rfl

/-- Alphabet used by base36encode. -/
def base36alphabet : List Char :=
  "0123456789abcdefghijklmnopqrstuvwxyz".toList

/-- Indexing alphabet[i] for the digit i = number mod 36. -/
def base36digit (i : Nat) : Char := base36alphabet.getD i ' '

/-- Encoding loop of base36encode: while number is nonzero, divide by 36 and
prepend alphabet[remainder] to the accumulated string. The first argument
is fuel bounding the number of iterations; since the number strictly
decreases on every iteration, fuel equal to the starting number more than
suffices and the loop result is independent of any larger fuel. -/
def base36encodeLoop : Nat → Nat → List Char → List Char
  | 0, _, acc => acc
  | _fuel + 1, 0, acc => acc
  | fuel + 1, number, acc =>
      base36encodeLoop fuel (number / 36) (base36digit (number % 36) :: acc)

/-- Digits produced by the loop of base36encode applied to n. -/
def base36encodeDigits (n : Nat) : List Char := base36encodeLoop n n []

/-- Interpreting a string as a base 36 numeral over the alphabet of
base36encode: each character contributes its index in the alphabet. -/
def base36decode (s : List Char) : Nat :=
  s.foldl (fun a c => a * 36 + base36alphabet.indexOf c) 0

theorem base36encodeLoop_acc (fuel : Nat) :
    ∀ number acc, base36encodeLoop fuel number acc =
      base36encodeLoop fuel number [] ++ acc := by
  induction fuel with
  | zero => intro number acc; simp [base36encodeLoop]
  | succ fuel ih =>
      intro number acc
      match number with
      | 0 => simp [base36encodeLoop]
      | m + 1 =>
          simp only [base36encodeLoop]
          rw [ih ((m + 1) / 36) (base36digit ((m + 1) % 36) :: acc),
            ih ((m + 1) / 36) [base36digit ((m + 1) % 36)]]
          simp

theorem base36alphabet_indexOf_digit :
    ∀ i, i < 36 → base36alphabet.indexOf (base36digit i) = i := by
  decide

theorem base36decode_encodeLoop (fuel : Nat) :
    ∀ number, number ≤ fuel →
      base36decode (base36encodeLoop fuel number []) = number := by
  induction fuel with
  | zero =>
      intro number h
      interval_cases number
      simp [base36encodeLoop, base36decode]
  | succ fuel ih =>
      intro number h
      match number with
      | 0 => simp [base36encodeLoop, base36decode]
      | m + 1 =>
          have hdiv : (m + 1) / 36 ≤ fuel := by
            have := Nat.div_le_self (m + 1) 36
            have h2 : (m + 1) / 36 < m + 1 :=
              Nat.div_lt_self (Nat.succ_pos m) (by omega)
            omega
          simp only [base36encodeLoop]
          rw [base36encodeLoop_acc]
          unfold base36decode
          rw [List.foldl_append]
          have hrec := ih ((m + 1) / 36) hdiv
          unfold base36decode at hrec
          rw [hrec]
          simp only [List.foldl_cons, List.foldl_nil]
          rw [base36alphabet_indexOf_digit ((m + 1) % 36) (Nat.mod_lt _ (by omega))]
          omega

/-- C10: base 36 round trip: for every positive integer n, interpreting the
string produced by the encoding loop of base36encode applied to n as a base
36 numeral over the alphabet 0123456789abcdefghijklmnopqrstuvwxyz yields n
back, and for n = 0 the loop produces the empty string. -/
theorem base36encode_roundtrip :
    (∀ n : Nat, 0 < n → base36decode (base36encodeDigits n) = n) ∧
      base36encodeDigits 0 = [] := by
  constructor
  · intro n _
    exact base36decode_encodeLoop n n (Nat.le_refl n)
  · rfl

/-- C10 witness: the round trip evaluated at the concrete input 1295
(base 36 digits zz). -/
theorem base36encode_roundtrip_witness :
    0 < 1295 ∧ base36decode (base36encodeDigits 1295) = 1295 :=
  ⟨by decide, base36encode_roundtrip.1 1295 (by decide)⟩

/-- A playlist object as it appears in the al_audio payloads: the fields the
module reads are list, hasMore, id, nextOffset and title. -/
structure Playlist where
  list : List Track
  hasMore : Bool
  id : String
  nextOffset : String
  title : String
  deriving DecidableEq, Repr

/-- Loop body of _iter_playlist_by_response from audio.py. The argument
pages holds the successive playlists returned by the initial request and by
each follow up load_catalog_section request; none models a response in which
the target playlist was not found, which makes the while condition fail.
The second argument is the running offset_left counter. Faithful to the
source, after a page is sliced the counter is increased by the length of
the sliced list, because the Python code reassigns ids before executing
offset_left += len(ids). -/
def iter_playlist_loop (offset : Nat) : Nat → List (Option Playlist) → List FullId
  | _, [] => []
  | _, none :: _ => []
  | offset_left, some playlist :: rest =>
      let ids := scrap_ids playlist.list
      if ids = [] then []
      else if offset ≤ offset_left + ids.length then
        let ids2 := if offset_left < offset then ids.drop (offset - offset_left) else ids
        ids2 ++
          (if playlist.hasMore then
            iter_playlist_loop offset (offset_left + ids2.length) rest
          else [])
      else
        (if playlist.hasMore then
          iter_playlist_loop offset (offset_left + ids.length) rest
        else [])

/-- Generator _iter_playlist_by_response, as the ids it yields tracks for,
given the requested offset and the playlist pages the server returns. -/
def iter_playlist_by_response (offset : Nat) (pages : List (Option Playlist)) :
    List FullId :=
  iter_playlist_loop offset 0 pages

/-- Concatenation, in page order, of the ids scraped from the successive
playlist pages the generator walks: it stops at a missing target playlist,
at a page with no scraped ids, and after a page whose hasMore is false. -/
def walked_ids : List (Option Playlist) → List FullId
  | [] => []
  | none :: _ => []
  | some playlist :: rest =>
      let ids := scrap_ids playlist.list
      if ids = [] then []
      else ids ++ (if playlist.hasMore then walked_ids rest else [])

/-- C1: evaluation of the pagination at a failing input. The claim says the
generator yields exactly the walked ids with the first offset ids dropped.
With offset 2 and two pages of two ids each it yields nothing, although two
ids remain after dropping the first two: the code adds the sliced length to
offset_left, so the second page is sliced again instead of being yielded. -/
theorem iter_playlist_offset_drops_too_much :
    iter_playlist_by_response 2
        [some ⟨[⟨.str "1", .str "1", "h1"⟩, ⟨.str "2", .str "1", "h2"⟩], true, "s", "n", "t"⟩,
         some ⟨[⟨.str "3", .str "1", "h3"⟩, ⟨.str "4", .str "1", "h4"⟩], false, "s", "n", "t"⟩]
      = [] ∧
    (walked_ids
        [some ⟨[⟨.str "1", .str "1", "h1"⟩, ⟨.str "2", .str "1", "h2"⟩], true, "s", "n", "t"⟩,
         some ⟨[⟨.str "3", .str "1", "h3"⟩, ⟨.str "4", .str "1", "h4"⟩], false, "s", "n", "t"⟩]).drop 2
      = [("1", "3", "h3"), ("1", "4", "h4")] := by
  constructor <;> rfl

def TRACKS_PER_USER_PAGE : Nat := 2000

def TRACKS_PER_ALBUM_PAGE : Nat := 2000

/-- Section payload of a load_section response: response data[0], with the
fields get_iter reads. -/
structure SectionData where
  list : List Track
  hasMore : Bool
  deriving DecidableEq, Repr

/-- A load_section response; data0 is none when response data[0] is falsy,
which makes get_iter raise AccessDenied. -/
structure LoadSectionResponse where
  data0 : Option SectionData
  deriving DecidableEq, Repr

/-- Observable outcome of get_iter: the offsets of the successive
load_section requests it issued, the ids whose tracks it yielded, and
whether it raised AccessDenied. -/
structure GetIterResult where
  offsets : List Nat
  yielded : List FullId
  accessDenied : Bool
  deriving DecidableEq, Repr

/-- Step of offset between pages in get_iter: TRACKS_PER_ALBUM_PAGE when an
album id is given, TRACKS_PER_USER_PAGE otherwise. -/
def get_iter_offset_diff (album_id : Option Int) : Nat :=
  if album_id.isSome then TRACKS_PER_ALBUM_PAGE else TRACKS_PER_USER_PAGE

/-- Loop of get_iter from audio.py over the successive load_section
responses: raise AccessDenied on a falsy data[0], stop on a page with no
scraped ids, yield the tracks of the page, continue at offset plus
offset_diff while hasMore holds. -/
def get_iter_loop (offset_diff : Nat) : Nat → List LoadSectionResponse → GetIterResult
  | _, [] => ⟨[], [], false⟩
  | offset, response :: rest =>
      match response.data0 with
      | none => ⟨[offset], [], true⟩
      | some d0 =>
          let ids := scrap_ids d0.list
          if ids = [] then ⟨[offset], [], false⟩
          else if d0.hasMore then
            let r := get_iter_loop offset_diff (offset + offset_diff) rest
            ⟨offset :: r.offsets, ids ++ r.yielded, r.accessDenied⟩
          else ⟨[offset], ids, false⟩

/-- get_iter from audio.py, starting at offset 0. -/
def get_iter (album_id : Option Int) (pages : List LoadSectionResponse) :
    GetIterResult :=
  get_iter_loop (get_iter_offset_diff album_id) 0 pages

/-- A page lets the get_iter loop continue exactly when its data[0] is
present, its scraped ids are nonempty and its hasMore flag is set. -/
def page_continues (response : LoadSectionResponse) : Bool :=
  match response.data0 with
  | none => false
  | some d0 => !(scrap_ids d0.list).isEmpty && d0.hasMore

/-- Index of the first response at which the get_iter loop stops. -/
def first_stop_idx (pages : List LoadSectionResponse) : Nat :=
  pages.findIdx (fun r => !page_continues r)

/-- Number of load_section requests get_iter issues over the given
responses: every page before the first stopping page, plus the stopping
page itself when the responses reach it. -/
def get_iter_request_count (pages : List LoadSectionResponse) : Nat :=
  min pages.length (first_stop_idx pages + 1)

/-- AccessDenied is raised exactly when the first page at which the loop
stops has a falsy data[0]. -/
def get_iter_denied_spec (pages : List LoadSectionResponse) : Bool :=
  match pages.find? (fun r => !page_continues r) with
  | some r => r.data0.isNone
  | none => false

theorem get_iter_loop_offsets (offset_diff : Nat) (pages : List LoadSectionResponse) :
    ∀ start, (get_iter_loop offset_diff start pages).offsets =
      (List.range (get_iter_request_count pages)).map (fun k => start + k * offset_diff) := by
  induction pages with
  | nil =>
      intro start
      simp [get_iter_loop, get_iter_request_count]
  | cons response rest ih =>
      intro start
      have hone : page_continues response = false →
          get_iter_request_count (response :: rest) = 1 := by
        intro hr
        simp [get_iter_request_count, first_stop_idx, List.findIdx_cons, hr]
      match hd : response.data0 with
      | none =>
          have hcf : page_continues response = false := by simp [page_continues, hd]
          rw [hone hcf]
          simp [get_iter_loop, hd, List.range_succ]
      | some d0 =>
          by_cases hids : scrap_ids d0.list = []
          · have hcf : page_continues response = false := by
              simp [page_continues, hd, hids]
            rw [hone hcf]
            simp [get_iter_loop, hd, hids, List.range_succ]
          · by_cases hmore : d0.hasMore = true
            · have hct : page_continues response = true := by
                simp [page_continues, hd, hids, hmore, List.isEmpty_iff]
              have hfle : rest.findIdx (fun r => !page_continues r) ≤ rest.length :=
                List.findIdx_le_length _
              have hcount : get_iter_request_count (response :: rest) =
                  get_iter_request_count rest + 1 := by
                simp only [get_iter_request_count, first_stop_idx,
                  List.findIdx_cons, hct, Bool.not_true, cond_false, List.length_cons]
                omega
              have hproj : (get_iter_loop offset_diff start (response :: rest)).offsets
                  = start :: (get_iter_loop offset_diff (start + offset_diff) rest).offsets := by
                simp [get_iter_loop, hd, hids, hmore]
              rw [hproj, ih (start + offset_diff), hcount, List.range_succ_eq_map,
                List.map_cons, List.map_map]
              congr 1
              · omega
              · apply List.map_congr_left
                intro k _
                simp only [Function.comp_apply, Nat.succ_eq_add_one]
                ring
            · have hcf : page_continues response = false := by
                simp [page_continues, hd, hmore]
              rw [hone hcf]
              simp [get_iter_loop, hd, hids, hmore, List.range_succ]

theorem get_iter_loop_denied (offset_diff : Nat) (pages : List LoadSectionResponse) :
    ∀ start, (get_iter_loop offset_diff start pages).accessDenied =
      get_iter_denied_spec pages := by
  induction pages with
  | nil => intro start; simp [get_iter_loop, get_iter_denied_spec]
  | cons response rest ih =>
      intro start
      match hd : response.data0 with
      | none =>
          have hcf : page_continues response = false := by simp [page_continues, hd]
          simp [get_iter_loop, hd, get_iter_denied_spec, List.find?_cons, hcf]
      | some d0 =>
          by_cases hids : scrap_ids d0.list = []
          · have hcf : page_continues response = false := by
              simp [page_continues, hd, hids]
            simp [get_iter_loop, hd, hids, get_iter_denied_spec, List.find?_cons, hcf]
          · by_cases hmore : d0.hasMore = true
            · have hct : page_continues response = true := by
                simp [page_continues, hd, hids, hmore, List.isEmpty_iff]
              have hspec : get_iter_denied_spec (response :: rest) =
                  get_iter_denied_spec rest := by
                simp [get_iter_denied_spec, List.find?_cons, hct]
              have hproj : (get_iter_loop offset_diff start (response :: rest)).accessDenied
                  = (get_iter_loop offset_diff (start + offset_diff) rest).accessDenied := by
                simp [get_iter_loop, hd, hids, hmore]
              rw [hproj, hspec]
              exact ih (start + offset_diff)
            · have hcf : page_continues response = false := by
                simp [page_continues, hd, hmore]
              simp [get_iter_loop, hd, hids, hmore, get_iter_denied_spec,
                List.find?_cons, hcf]

/-- C4: get_iter paginates with a fixed step: the offset of successive
load_section requests starts at 0 and increases by exactly
TRACKS_PER_ALBUM_PAGE = 2000 when album_id is given and
TRACKS_PER_USER_PAGE = 2000 otherwise; iteration stops as soon as a page
has hasMore false or yields no scraped ids (get_iter_request_count counts
the pages up to and including the first page that does not continue), and
AccessDenied is raised exactly when the page at which it stops has an
empty data[0]. -/
theorem get_iter_fixed_step_pagination :
    (TRACKS_PER_ALBUM_PAGE = 2000 ∧ TRACKS_PER_USER_PAGE = 2000) ∧
    (∀ album_id, get_iter_offset_diff album_id = 2000) ∧
    (∀ album_id pages, (get_iter album_id pages).offsets =
      (List.range (get_iter_request_count pages)).map
        (fun k => k * get_iter_offset_diff album_id)) ∧
    (∀ album_id pages, (get_iter album_id pages).accessDenied =
      get_iter_denied_spec pages) := by
  refine ⟨⟨rfl, rfl⟩, ?_, ?_, ?_⟩
  · intro album_id
    cases album_id <;> rfl
  · intro album_id pages
    have h := get_iter_loop_offsets (get_iter_offset_diff album_id) pages 0
    simpa [get_iter] using h
  · intro album_id pages
    exact get_iter_loop_denied (get_iter_offset_diff album_id) pages 0

/-- A catalog section page seen by get_updates_iter: the playlists of
payload[1][1] (only their list fields are read, plus the sectionId and
nextFrom used for the follow up request). -/
structure UpdatesPage where
  playlists : List (List Track)
  sectionId : String
  nextFrom : String
  deriving DecidableEq, Repr

/-- Observable outcome of get_updates_iter: the ids whose tracks it yielded
and the (section_id, start_from) pairs of the load_catalog_section requests
it issued. -/
structure UpdatesResult where
  yielded : List FullId
  requests : List (String × String)
  deriving DecidableEq, Repr

/-- Loop of get_updates_iter from audio.py over the successive pages: build
updates as the list fields of the playlists, scrape the first track of each
nonempty update, stop if no ids were scraped, yield the tracks, stop if the
page held fewer than 11 playlists, otherwise request the next page with the
sectionId and nextFrom of the current page. -/
def get_updates_loop : List UpdatesPage → UpdatesResult
  | [] => ⟨[], []⟩
  | page :: rest =>
      let updates := page.playlists
      let ids := scrap_ids (updates.filterMap List.head?)
      if ids = [] then ⟨[], []⟩
      else if updates.length < 11 then ⟨ids, []⟩
      else
        let r := get_updates_loop rest
        ⟨ids ++ r.yielded, (page.sectionId, page.nextFrom) :: r.requests⟩

/-- C7: the ad hoc continuation rule of get_updates_iter: after yielding the
tracks of a page it requests the next catalog section page, using the
sectionId and nextFrom of that page, if and only if the page contained 11
or more update playlists; with fewer than 11 it stops after yielding, and
it also stops, yielding nothing, when the nonempty playlists of a page
give no scraped ids. -/
theorem get_updates_iter_continuation :
    ∀ (page : UpdatesPage) (rest : List UpdatesPage),
      ((get_updates_loop (page :: rest)).requests.head? =
        (if scrap_ids (page.playlists.filterMap List.head?) ≠ [] ∧
            11 ≤ page.playlists.length
          then some (page.sectionId, page.nextFrom) else none)) ∧
      (scrap_ids (page.playlists.filterMap List.head?) = [] →
        get_updates_loop (page :: rest) = ⟨[], []⟩) ∧
      (scrap_ids (page.playlists.filterMap List.head?) ≠ [] →
        page.playlists.length < 11 →
        get_updates_loop (page :: rest) =
          ⟨scrap_ids (page.playlists.filterMap List.head?), []⟩) := by
  intro page rest
  by_cases hids : scrap_ids (page.playlists.filterMap List.head?) = []
  · refine ⟨?_, fun _ => ?_, fun h _ => absurd hids h⟩
    · simp [get_updates_loop, hids]
    · simp [get_updates_loop, hids]
  · by_cases hlen : page.playlists.length < 11
    · refine ⟨?_, fun h => absurd h hids, fun _ _ => ?_⟩
      · have h11 : ¬(11 ≤ page.playlists.length) := by omega
        simp [get_updates_loop, hids, hlen, h11]
      · simp [get_updates_loop, hids, hlen]
    · refine ⟨?_, fun h => absurd h hids, fun _ h => absurd h hlen⟩
      have hcond : scrap_ids (page.playlists.filterMap List.head?) ≠ [] ∧
          11 ≤ page.playlists.length := ⟨hids, by omega⟩
      simp [get_updates_loop, hids, hlen, hcond]

/-- Errors that can escape get_target_playlist_from_json: the
RetryAudioRequest it raises on a string payload, and the exception it
re-raises when the playlists key is missing. -/
inductive AudioErr where
  | retryAudioRequest
  | keyError
  deriving DecidableEq, Repr

/-- Shape of payload[1][1] of an al_audio JSON response: either a string,
or an object that may or may not carry a playlists key. -/
inductive Payload11 where
  | pstr (s : String)
  | sec (playlists : Option (List Playlist))
  deriving DecidableEq, Repr

/-- get_target_playlist_from_json from audio.py. When payload[1][1] is a
string it calls self.vk.auth() and raises RetryAudioRequest; when the
playlists key is missing the caught exception is logged and re-raised;
otherwise the first playlist whose title is among targets is returned, or
none when there is no such playlist. The Bool records whether auth was
called. -/
def get_target_playlist_from_json (payload11 : Payload11) (targets : List String) :
    Bool × Except AudioErr (Option Playlist) :=
  match payload11 with
  | .pstr _ => (true, .error .retryAudioRequest)
  | .sec none => (false, .error .keyError)
  | .sec (some playlists) =>
      (false, .ok (playlists.find? (fun p => targets.contains p.title)))

/-- Retry wrapper around the initial request of _iter_playlist_by_response:
first_playlist() is attempted; only on RetryAudioRequest it is attempted a
second time, whose outcome, success or error, is final. The arguments are
the outcomes of the first and, if needed, second attempt; the number of
attempts performed is returned alongside the result. -/
def first_playlist_with_retry (r1 r2 : Except AudioErr (Option Playlist)) :
    Except AudioErr (Option Playlist) × Nat :=
  match r1 with
  | .error .retryAudioRequest => (r2, 2)
  | r => (r, 1)

/-- C3: single retry on one known error shape: get_target_playlist_from_json
raises RetryAudioRequest exactly when payload[1][1] is a string, in which
case it has re-authenticated first; the initial request of
_iter_playlist_by_response is repeated exactly once on RetryAudioRequest,
whose second outcome, RetryAudioRequest included, is final; any other
outcome of the first attempt, errors included, is returned without a
second attempt, and at most two attempts ever happen. -/
theorem single_retry_on_retry_audio_request :
    (∀ payload11 targets,
      ((get_target_playlist_from_json payload11 targets).2 =
          .error .retryAudioRequest ↔ ∃ s, payload11 = .pstr s) ∧
      ((get_target_playlist_from_json payload11 targets).1 = true ↔
          ∃ s, payload11 = .pstr s)) ∧
    (∀ r2, first_playlist_with_retry (.error .retryAudioRequest) r2 = (r2, 2)) ∧
    (∀ r1 r2, r1 ≠ .error .retryAudioRequest →
      first_playlist_with_retry r1 r2 = (r1, 1)) ∧
    (∀ r1 r2, (first_playlist_with_retry r1 r2).2 ≤ 2) := by
  refine ⟨?_, ?_, ?_, ?_⟩
  · intro payload11 targets
    constructor
    · match payload11 with
      | .pstr s => simp [get_target_playlist_from_json]
      | .sec none => simp [get_target_playlist_from_json]
      | .sec (some playlists) => simp [get_target_playlist_from_json]
    · match payload11 with
      | .pstr s => simp [get_target_playlist_from_json]
      | .sec none => simp [get_target_playlist_from_json]
      | .sec (some playlists) => simp [get_target_playlist_from_json]
  · intro r2
    rfl
  · intro r1 r2 h
    match r1 with
    | .ok p => rfl
    | .error .retryAudioRequest => exact absurd rfl h
    | .error .keyError => rfl
  · intro r1 r2
    match r1 with
    | .ok p => norm_num [first_playlist_with_retry]
    | .error .retryAudioRequest => norm_num [first_playlist_with_retry]
    | .error .keyError => norm_num [first_playlist_with_retry]

/-- One group of at most 10 ids per reload_audios request: the Python
comprehension ids[i : i + 10] for i in range(0, len(ids), 10), with
range(0, n, 10) having ceil(n / 10) elements, the j-th being 10 * j. -/
def scrap_tracks_groups (ids : List FullId) : List (List FullId) :=
  (List.range ((ids.length + 9) / 10)).map (fun j => (ids.drop (10 * j)).take 10)

/-- Value of the audio_ids form field for one group: the full ids joined by
an underscore, the groups joined by commas. -/
def audio_ids_param (group : List FullId) : String :=
  String.intercalate "," (group.map (fun i => i.1 ++ "_" ++ i.2.1 ++ "_" ++ i.2.2))

/-- Form fields of the successive reload_audios requests of scrap_tracks. -/
def scrap_tracks_requests (ids : List FullId) : List String :=
  (scrap_tracks_groups ids).map audio_ids_param

theorem scrap_tracks_groups_nil : scrap_tracks_groups [] = [] := rfl

theorem scrap_tracks_groups_cons (ids : List FullId) (h : ids ≠ []) :
    scrap_tracks_groups ids = ids.take 10 :: scrap_tracks_groups (ids.drop 10) := by
  have hlen : 1 ≤ ids.length := by
    cases ids with
    | nil => exact absurd rfl h
    | cons a t => simp
  have hk : (ids.length + 9) / 10 = ((ids.drop 10).length + 9) / 10 + 1 := by
    rw [List.length_drop]
    omega
  unfold scrap_tracks_groups
  rw [hk, List.range_succ_eq_map, List.map_cons, List.map_map]
  congr 1
  apply List.map_congr_left
  intro j _
  simp only [Function.comp_apply]
  rw [List.drop_drop]
  have h10 : 10 * Nat.succ j = 10 + 10 * j := by omega
  rw [h10]

theorem scrap_tracks_groups_join :
    ∀ (n : Nat) (ids : List FullId), ids.length ≤ n →
      (scrap_tracks_groups ids).join = ids := by
  intro n
  induction n with
  | zero =>
      intro ids h
      have : ids = [] := by
        cases ids with
        | nil => rfl
        | cons a t => simp at h
      rw [this, scrap_tracks_groups_nil]
      rfl
  | succ n ih =>
      intro ids h
      by_cases hnil : ids = []
      · rw [hnil, scrap_tracks_groups_nil]; rfl
      · rw [scrap_tracks_groups_cons ids hnil]
        have hdrop : (ids.drop 10).length ≤ n := by
          rw [List.length_drop]
          have hlen : 1 ≤ ids.length := by
            cases ids with
            | nil => exact absurd rfl hnil
            | cons a t => simp
          omega
        simp only [List.join_cons, ih (ids.drop 10) hdrop]
        exact List.take_append_drop 10 ids

theorem scrap_tracks_groups_all_but_last :
    ∀ (ids : List FullId) (j : Nat) (g : List FullId),
      j + 1 < (scrap_tracks_groups ids).length →
      (scrap_tracks_groups ids).get? j = some g → g.length = 10 := by
  intro ids j g hj hg
  unfold scrap_tracks_groups at hj hg
  rw [List.length_map, List.length_range] at hj
  rw [List.get?_map] at hg
  rw [List.get?_range (by omega)] at hg
  simp only [Option.map_some'] at hg
  have hgeq : g = (ids.drop (10 * j)).take 10 := by
    injection hg with h1
    exact h1.symm
  subst hgeq
  rw [List.length_take, List.length_drop]
  omega

/-- C8: batching invariant of scrap_tracks: the ids are partitioned in
order into consecutive groups, every reload_audios request carries at most
10 ids joined as owner_audio_hash strings, exactly ceil(n / 10) requests
are issued for n ids, and every group except possibly the last has exactly
10 ids. -/
theorem scrap_tracks_batching :
    ∀ ids : List FullId,
      (scrap_tracks_groups ids).join = ids ∧
      (∀ g, g ∈ scrap_tracks_groups ids → g.length ≤ 10) ∧
      (scrap_tracks_requests ids).length = (ids.length + 9) / 10 ∧
      (∀ j g, j + 1 < (scrap_tracks_groups ids).length →
        (scrap_tracks_groups ids).get? j = some g → g.length = 10) ∧
      scrap_tracks_requests ids = (scrap_tracks_groups ids).map audio_ids_param := by
  intro ids
  refine ⟨scrap_tracks_groups_join ids.length ids (Nat.le_refl _), ?_, ?_,
    scrap_tracks_groups_all_but_last ids, rfl⟩
  · intro g hg
    unfold scrap_tracks_groups at hg
    rw [List.mem_map] at hg
    obtain ⟨j, _, hj⟩ := hg
    rw [← hj, List.length_take]
    omega
  · unfold scrap_tracks_requests scrap_tracks_groups
    rw [List.length_map, List.length_map, List.length_range]

/-- Delay constant RPS_DELAY_RELOAD_AUDIO = 1.5 seconds, as an exact
rational. -/
def RPS_DELAY_RELOAD_AUDIO : ℚ := 1.5

/-- Timing data of one loop iteration of scrap_tracks: pre is the time from
the start of the iteration (the previous recording of last_request) to the
time.time() call of the delay computation, extra is the nonnegative excess
of the actual pause over the requested sleep plus any latency before the
request goes out, dur is the duration of the HTTP request, and post is the
time from its completion to the recording last_request = time.time(). -/
structure ReqTiming where
  pre : ℚ
  extra : ℚ
  dur : ℚ
  post : ℚ
  deriving DecidableEq

/-- All components of an iteration timing are nonnegative, and sleep never
pauses for less than requested. -/
def ReqTiming.ok (g : ReqTiming) : Prop :=
  0 ≤ g.pre ∧ 0 ≤ g.extra ∧ 0 ≤ g.dur ∧ 0 ≤ g.post

instance (g : ReqTiming) : Decidable g.ok := by
  unfold ReqTiming.ok
  infer_instance

/-- Timeline of scrap_tracks: given the current time and the value of
last_request (initially 0.0 in the source), it returns the (start,
completion) instants of the successive reload_audios requests. Per
iteration: delay = RPS_DELAY_RELOAD_AUDIO - (time.time() - last_request)
is computed, time.sleep(delay) runs when delay is positive, the request is
issued and last_request is set to time.time() after its completion. -/
def scrap_tracks_timeline : ℚ → ℚ → List ReqTiming → List (ℚ × ℚ)
  | _, _, [] => []
  | now, last_request, g :: gs =>
      let tCheck := now + g.pre
      let delay := RPS_DELAY_RELOAD_AUDIO - (tCheck - last_request)
      let tStart := (if 0 < delay then tCheck + delay else tCheck) + g.extra
      let tDone := tStart + g.dur
      let newLast := tDone + g.post
      (tStart, tDone) :: scrap_tracks_timeline newLast newLast gs

theorem scrap_tracks_timeline_head_start
    (g : ReqTiming) (gs : List ReqTiming) (now last_request : ℚ)
    (hg : g.ok) :
    ∀ p ∈ (scrap_tracks_timeline now last_request (g :: gs)).head?,
      last_request + RPS_DELAY_RELOAD_AUDIO ≤ p.1 := by
  intro p hp
  simp only [scrap_tracks_timeline, List.head?_cons, Option.mem_def,
    Option.some.injEq] at hp
  obtain ⟨hpre, hextra, _, _⟩ := hg
  subst hp
  by_cases hdelay :
      0 < RPS_DELAY_RELOAD_AUDIO - (now + g.pre - last_request)
  · rw [if_pos hdelay]
    dsimp only
    linarith
  · rw [if_neg hdelay]
    dsimp only
    push_neg at hdelay
    linarith

theorem scrap_tracks_timeline_chain
    (gs : List ReqTiming) :
    ∀ now last_request, (∀ g ∈ gs, g.ok) → last_request ≤ now →
      List.Chain' (fun a b : ℚ × ℚ => a.2 + RPS_DELAY_RELOAD_AUDIO ≤ b.1)
        (scrap_tracks_timeline now last_request gs) := by
  induction gs with
  | nil => intro now last_request _ _; simp [scrap_tracks_timeline]
  | cons g gs ih =>
      intro now last_request hok hnow
      have hg : g.ok := hok g (by simp)
      obtain ⟨hpre, hextra, hdur, hpost⟩ := hg
      rw [scrap_tracks_timeline]
      rw [List.chain'_cons']
      set tCheck := now + g.pre with htCheck
      set delay := RPS_DELAY_RELOAD_AUDIO - (tCheck - last_request) with hdelay
      set tStart := (if 0 < delay then tCheck + delay else tCheck) + g.extra
        with htStart
      set tDone := tStart + g.dur with htDone
      set newLast := tDone + g.post with hnewLast
      constructor
      · intro b hb
        have hhead := scrap_tracks_timeline_head_start
          (gs.headD ⟨0, 0, 0, 0⟩) gs.tail newLast newLast ?hok
        case hok =>
          match gs with
          | [] => exact ⟨le_refl 0, le_refl 0, le_refl 0, le_refl 0⟩
          | g2 :: gs2 => exact hok g2 (by simp)
        match gs with
        | [] => simp [scrap_tracks_timeline] at hb
        | g2 :: gs2 =>
            have hb2 := hhead b (by simpa using hb)
            have : tDone ≤ newLast := by rw [hnewLast]; linarith
            dsimp only
            linarith
      · exact ih newLast newLast (fun g2 hg2 => hok g2 (by simp [hg2]))
          (le_refl newLast)

/-- C2: fixed inter request delay in scrap_tracks: under exact arithmetic,
a monotone clock and a sleep that pauses at least the requested amount,
between the completion of one reload_audios request and the start of the
next at least RPS_DELAY_RELOAD_AUDIO = 1.5 seconds elapse, for every input
list of ids (represented by the timing data of its batches) and any start
state of the loop. -/
theorem scrap_tracks_inter_request_delay
    (gs : List ReqTiming) (now last_request : ℚ)
    (hok : ∀ g ∈ gs, g.ok) (hnow : last_request ≤ now) :
    RPS_DELAY_RELOAD_AUDIO = 1.5 ∧
      List.Chain' (fun a b : ℚ × ℚ => a.2 + RPS_DELAY_RELOAD_AUDIO ≤ b.1)
        (scrap_tracks_timeline now last_request gs) :=
  ⟨rfl, scrap_tracks_timeline_chain gs now last_request hok hnow⟩

/-- C2 witness: the inter request delay theorem applied to two batches with
all timing components zero, starting at time 0 with last_request 0. -/
theorem scrap_tracks_inter_request_delay_witness :
    (∀ g ∈ [(⟨0, 0, 0, 0⟩ : ReqTiming), ⟨0, 0, 0, 0⟩], g.ok) ∧
      (0 : ℚ) ≤ 0 ∧
      ( RPS_DELAY_RELOAD_AUDIO = 1.5 ∧
        List.Chain' (fun a b : ℚ × ℚ => a.2 + RPS_DELAY_RELOAD_AUDIO ≤ b.1)
          (scrap_tracks_timeline 0 0
            [(⟨0, 0, 0, 0⟩ : ReqTiming), ⟨0, 0, 0, 0⟩])) :=
  ⟨by decide, le_refl 0,
    scrap_tracks_inter_request_delay
      [(⟨0, 0, 0, 0⟩ : ReqTiming), ⟨0, 0, 0, 0⟩] 0 0 (by decide) (le_refl 0)⟩

/-- Character class [0-9a-f] of RE_M3U8_TO_MP3. -/
def isHexLower (c : Char) : Bool :=
  ('0' ≤ c && c ≤ '9') || ('a' ≤ c && c ≤ 'f')

/-- Matcher for the part / [0-9a-f]+ / index . m3u8 of RE_M3U8_TO_MP3 that
follows the optional group, where the dot matches any character except a
newline; returns the text of capture group 2 (the hex run, which any match
must take maximal because the character after it has to be a slash) and the
characters after the match. -/
def matchTail (s : List Char) : Option (List Char × List Char) :=
  match s with
  | '/' :: s1 =>
      let g2 := s1.takeWhile isHexLower
      match s1.dropWhile isHexLower with
      | '/' :: 'i' :: 'n' :: 'd' :: 'e' :: 'x' :: c :: 'm' :: '3' :: 'u' :: '8' :: rest =>
          if g2.isEmpty || c == '\n' then none else some (g2, rest)
      | _ => none
  | _ => none

/-- Matcher for ( / audios )? followed by the tail pattern, with the greedy
backtracking of the optional group: the literal branch is tried first and
the group is dropped when the rest of the pattern fails after it. The Bool
records whether group 1 participated in the match. -/
def matchOptAudios (s : List Char) : Option (Bool × List Char × List Char) :=
  match s with
  | '/' :: 'a' :: 'u' :: 'd' :: 'i' :: 'o' :: 's' :: rest =>
      match matchTail rest with
      | some (g2, r) => some (true, g2, r)
      | none =>
          match matchTail s with
          | some (g2, r) => some (false, g2, r)
          | none => none
  | _ =>
      match matchTail s with
      | some (g2, r) => some (false, g2, r)
      | none => none

/-- Match of the full pattern RE_M3U8_TO_MP3 anchored at the start of s:
a slash, a nonempty maximal hex run (maximal because a slash has to
follow), the optional audios group and the tail. -/
def matchM3u8At (s : List Char) : Option (Bool × List Char × List Char) :=
  match s with
  | '/' :: s1 =>
      if (s1.takeWhile isHexLower).isEmpty then none
      else matchOptAudios (s1.dropWhile isHexLower)
  | _ => none

/-- Replacement template backslash-one / backslash-two .mp3 of the
substitution in scrap_tracks: group 1 is /audios when it participated and
empty otherwise. -/
def m3u8_repl (g1 : Bool) (g2 : List Char) : List Char :=
  (if g1 then ['/', 'a', 'u', 'd', 'i', 'o', 's'] else []) ++
    '/' :: (g2 ++ ['.', 'm', 'p', '3'])

/-- Scan of re.sub over the link: at each position the pattern is tried;
on a match the replacement is emitted and scanning resumes after the
matched span, otherwise one character is copied. The fuel bounds the
number of steps; every step consumes at least one character, so fuel equal
to the length of the string suffices. -/
def re_m3u8_sub_go : Nat → List Char → List Char
  | 0, s => s
  | _fuel + 1, [] => []
  | fuel + 1, c :: rest =>
      match matchM3u8At (c :: rest) with
      | some (g1, g2, tailRest) => m3u8_repl g1 g2 ++ re_m3u8_sub_go fuel tailRest
      | none => c :: re_m3u8_sub_go fuel rest

/-- The substitution RE_M3U8_TO_MP3.sub applied to a link. -/
def re_m3u8_sub (s : List Char) : List Char := re_m3u8_sub_go s.length s

/-- Test whether the string starts with the four characters m3u8. -/
def starts_m3u8 : List Char → Bool
  | 'm' :: '3' :: 'u' :: '8' :: _ => true
  | _ => false

/-- Python substring containment m3u8 in link. -/
def contains_m3u8 : List Char → Bool
  | [] => false
  | c :: rest => starts_m3u8 (c :: rest) || contains_m3u8 rest

/-- Link conversion step of scrap_tracks: when convert_m3u8_links holds and
the link contains m3u8, the substitution is applied, otherwise the link
passes through unchanged. -/
def convert_link_step (convert_m3u8_links : Bool) (link : List Char) : List Char :=
  if convert_m3u8_links && contains_m3u8 link then re_m3u8_sub link else link

theorem re_m3u8_sub_go_no_match :
    ∀ (fuel : Nat) (s : List Char), s.length ≤ fuel →
      (∀ t, t <:+ s → matchM3u8At t = none) → re_m3u8_sub_go fuel s = s := by
  intro fuel
  induction fuel with
  | zero => intro s _ _; rfl
  | succ fuel ih =>
      intro s hlen hnone
      match s with
      | [] => rfl
      | c :: rest =>
          have hmatch : matchM3u8At (c :: rest) = none :=
            hnone (c :: rest) (List.suffix_refl _)
          simp only [re_m3u8_sub_go, hmatch]
          congr 1
          refine ih rest ?_ ?_
          · simp only [List.length_cons] at hlen
            omega
          · intro t ht
            exact hnone t (ht.trans (List.suffix_cons c rest))

/-- C6: regex link rewriting in scrap_tracks: when convert_m3u8_links is
false the link is yielded unchanged by this step; when it is true and the
link contains the substring m3u8 the yielded url is the link with every
occurrence of RE_M3U8_TO_MP3 replaced by the template
group1 / group2 .mp3 (modelled by re_m3u8_sub; in particular a link with
no occurrence of the pattern anywhere is left unchanged by the
substitution), and without the substring the link also passes unchanged. -/
theorem scrap_tracks_link_rewriting :
    (∀ link : List Char, convert_link_step false link = link) ∧
    (∀ link : List Char, contains_m3u8 link = true →
      convert_link_step true link = re_m3u8_sub link) ∧
    (∀ link : List Char, contains_m3u8 link = false →
      convert_link_step true link = link) ∧
    (∀ link : List Char, (∀ t, t <:+ link → matchM3u8At t = none) →
      re_m3u8_sub link = link) := by
  refine ⟨?_, ?_, ?_, ?_⟩
  · intro link
    simp [convert_link_step]
  · intro link h
    simp [convert_link_step, h]
  · intro link h
    simp [convert_link_step, h]
  · intro link h
    exact re_m3u8_sub_go_no_match link.length link (le_refl _) h
